import Mathlib

/-!
Shallow embedding of the chart ingestion and question-synthesis pipeline of
`rancher-questions-generator` (Go), centred on
`backend/pkg/helm/processor.go` and the `Question` data model of
`internal/models`.

Go values of type `interface{}` produced by YAML decoding are modelled by the
inductive `Yaml`; `map[string]interface{}` is modelled as an association list
(keys are unique per mapping level, lookup finds the first match).
-/

/-- A decoded YAML value (`interface{}` after `yaml.Unmarshal` in Go). -/
inductive Yaml where
  | null : Yaml
  | bool (b : Bool) : Yaml
  | int (n : Int) : Yaml
  | str (s : String) : Yaml
  | seq (xs : List Yaml) : Yaml
  | map (kvs : List (String × Yaml)) : Yaml

/-- The `models.Question` struct (fields in Go declaration order:
`Variable, Label, Description, Type, Required, Default, Group, Options,
ShowIf, SubQuestions`). `Default interface{}` is a `Yaml` value
(Go `nil` interface = `Yaml.null`). -/
inductive Question where
  | mk (variable_ : String) (label : String) (description : String)
       (type_ : String) (required : Bool) (default_ : Yaml)
       (group : String) (options : List String) (show_if : String)
       (subquestions : List Question) : Question

def Question.variable_ : Question → String
  | .mk v _ _ _ _ _ _ _ _ _ => v

def Question.label : Question → String
  | .mk _ l _ _ _ _ _ _ _ _ => l

def Question.description : Question → String
  | .mk _ _ d _ _ _ _ _ _ _ => d

def Question.type_ : Question → String
  | .mk _ _ _ t _ _ _ _ _ _ => t

def Question.required : Question → Bool
  | .mk _ _ _ _ r _ _ _ _ _ => r

def Question.default_ : Question → Yaml
  | .mk _ _ _ _ _ d _ _ _ _ => d

def Question.group : Question → String
  | .mk _ _ _ _ _ _ g _ _ _ => g

def Question.options : Question → List String
  | .mk _ _ _ _ _ _ _ o _ _ => o

def Question.show_if : Question → String
  | .mk _ _ _ _ _ _ _ _ s _ => s

def Question.subquestions : Question → List Question
  | .mk _ _ _ _ _ _ _ _ _ qs => qs

/-- The `models.Questions` struct: a wrapper around the question list. -/
structure Questions where
  questions : List Question

/-- Lookup in a Go map modelled as an association list
(`val, ok := current[key]`). -/
def lookupKey (m : List (String × Yaml)) (k : String) : Option Yaml :=
  (m.find? (fun e => e.1 == k)).map (fun e => e.2)

/-- Loop body of `Processor.hasNestedKey`; `n` is the constant `len(keys)`
of the original variadic argument list. -/
def hasNestedKeyAux (n : Nat) : List (String × Yaml) → List String → Bool
  | _, [] => true
  | current, k :: rest =>
    match lookupKey current k with
    | none => false
    | some v =>
      match v with
      | .map nested => hasNestedKeyAux n nested rest
      | _ => n == 1

/-- Model of `Processor.hasNestedKey(data, keys...)` from
`backend/pkg/helm/processor.go`: walks `keys` through nested mappings;
when a key's value exists but is not a mapping it returns `len(keys) == 1`;
a missing key returns `false`; exhausting all keys returns `true`. -/
def hasNestedKey (data : List (String × Yaml)) (keys : List String) : Bool :=
  hasNestedKeyAux keys.length data keys

/-- The mandatory `name` question emitted first by
`generateDefaultQuestions`. -/
def nameQuestion : Question :=
  .mk "name" "Application Name" "Name for the application" "string" true
     .null "General" [] "" []

/-- The mandatory `namespace` question emitted second by
`generateDefaultQuestions`. -/
def namespaceQuestion : Question :=
  .mk "namespace" "Namespace" "Kubernetes namespace for the application"
     "string" true .null "General" [] "" []

/-- The `service.type` question emitted when
`hasNestedKey(values, "service", "type")` holds. -/
def serviceTypeQuestion : Question :=
  .mk "service.type" "Service Type" "Kubernetes service type" "enum" false
     (.str "ClusterIP") "Networking" ["ClusterIP", "NodePort", "LoadBalancer"]
     "" []

/-- The `persistence.storageClass` question emitted when
`hasNestedKey(values, "persistence", "storageClass")` holds. -/
def storageClassQuestion : Question :=
  .mk "persistence.storageClass" "Storage Class"
     "Storage class for persistent volumes" "string" false .null "Storage"
     [] "" []

/-- Model of `Processor.generateDefaultQuestions` from
`backend/pkg/helm/processor.go`. -/
def generateDefaultQuestions (values : List (String × Yaml)) : Questions :=
  ⟨[nameQuestion, namespaceQuestion]
    ++ (if hasNestedKey values ["service", "type"]
        then [serviceTypeQuestion] else [])
    ++ (if hasNestedKey values ["persistence", "storageClass"]
        then [storageClassQuestion] else [])⟩

/-- Model of `Processor.mergeQuestions` from `backend/pkg/helm/processor.go`:
keeps `existing.Questions` as-is and appends each default question whose
`Variable` is not a key of the map built from `existing.Questions`
(map membership = some existing question has that variable). -/
def mergeQuestions (existing defaults : Questions) : Questions :=
  ⟨existing.questions
    ++ defaults.questions.filter
        (fun q => !(existing.questions.any
          (fun e => e.variable_ == q.variable_)))⟩

/-- Holds when the value is a YAML scalar (string, number or boolean). -/
def Yaml.isScalar : Yaml → Bool
  | .str _ => true
  | .int _ => true
  | .bool _ => true
  | _ => false

/-- Specification-side predicate: every segment of the key path, including
the final one, resolves to a nested mapping. -/
def resolvesMappings : List (String × Yaml) → List String → Bool
  | _, [] => true
  | m, k :: rest =>
    match lookupKey m k with
    | some (.map nested) => resolvesMappings nested rest
    | _ => false

/-- Holds exactly on the YAML null value (a Go `nil` interface). -/
def Yaml.isNull : Yaml → Bool
  | .null => true
  | _ => false

/-- One serialized struct field, emitted only when the `omitempty` rule
allows it (`emit = false` models an omitted field). -/
def fieldOpt (emit : Bool) (k : String) (v : Yaml) : List (String × Yaml) :=
  if emit then [(k, v)] else []

mutual
/-- Model of `yaml.Marshal` of one `models.Question`, following the struct's yaml
field tags: `variable` and `label` always, every other field tagged
`omitempty` (omitted at its zero value: empty string, `false`, `nil`
interface, empty slice), in declaration order. -/
def serializeQuestion : Question → List (String × Yaml)
  | .mk v l d t r df g o s sq =>
    ("variable", Yaml.str v) :: ("label", Yaml.str l) ::
    (fieldOpt (d != "") "description" (.str d)
     ++ (fieldOpt (t != "") "type" (.str t)
     ++ (fieldOpt r "required" (.bool r)
     ++ (fieldOpt (!df.isNull) "default" df
     ++ (fieldOpt (g != "") "group" (.str g)
     ++ (fieldOpt (!o.isEmpty) "options" (.seq (o.map Yaml.str))
     ++ (fieldOpt (s != "") "show_if" (.str s)
     ++ fieldOpt (!sq.isEmpty) "subquestions"
          (.seq (serializeQuestionList sq)))))))))

/-- Model of `yaml.Marshal` of a `[]models.Question` slice. -/
def serializeQuestionList : List Question → List Yaml
  | [] => []
  | q :: qs => .map (serializeQuestion q) :: serializeQuestionList qs
end

/-- Model of `yaml.Marshal` of the `models.Questions` wrapper (single field tagged
`questions`, no `omitempty`). -/
def serializeQuestions (qs : Questions) : Yaml :=
  .map [("questions", .seq (serializeQuestionList qs.questions))]

/-- Unmarshalling a string-typed struct field: an absent field keeps the
zero value `""`; a non-string value is a decode error. -/
def getStrField (doc : List (String × Yaml)) (k : String) : Option String :=
  match lookupKey doc k with
  | none => some ""
  | some (.str s) => some s
  | some _ => none

/-- Unmarshalling a bool-typed struct field. -/
def getBoolField (doc : List (String × Yaml)) (k : String) : Option Bool :=
  match lookupKey doc k with
  | none => some false
  | some (.bool b) => some b
  | some _ => none

/-- Unmarshalling an `interface{}`-typed struct field: any value is
accepted; an absent field keeps the `nil` interface. -/
def getYamlField (doc : List (String × Yaml)) (k : String) : Option Yaml :=
  match lookupKey doc k with
  | none => some .null
  | some y => some y

def strOfYaml : Yaml → Option String
  | .str s => some s
  | _ => none

/-- Unmarshalling a `[]string` struct field. -/
def getStrListField (doc : List (String × Yaml)) (k : String) :
    Option (List String) :=
  match lookupKey doc k with
  | none => some []
  | some (.seq xs) => xs.mapM strOfYaml
  | some _ => none

/-- Size bound used for the deserializer's termination: a value found in a
mapping is smaller than the mapping. -/
theorem sizeOf_lookupKey : ∀ {m : List (String × Yaml)} {k : String}
    {v : Yaml}, lookupKey m k = some v → sizeOf v < sizeOf m := by
  intro m k
  induction m with
  | nil => intro v h; simp [lookupKey] at h
  | cons e rest ih =>
    obtain ⟨k1, v1⟩ := e
    intro v h
    cases h1 : (k1 == k) with
    | true =>
      simp [lookupKey, List.find?_cons, h1] at h
      subst h
      simp
      omega
    | false =>
      simp [lookupKey, List.find?_cons, h1] at h
      have := ih (v := v) (by simpa [lookupKey] using h)
      simp
      omega

mutual
/-- Model of `yaml.Unmarshal` of one YAML value into a `models.Question`: the value
must be a mapping; each struct field is read by tag name, absent fields
keep their zero value, ill-typed fields are a decode error. -/
def deserializeQuestion (y : Yaml) : Option Question :=
  match y with
  | .map doc => do
    let v ← getStrField doc "variable"
    let l ← getStrField doc "label"
    let d ← getStrField doc "description"
    let t ← getStrField doc "type"
    let r ← getBoolField doc "required"
    let df ← getYamlField doc "default"
    let g ← getStrField doc "group"
    let o ← getStrListField doc "options"
    let s ← getStrField doc "show_if"
    let sq ←
      match h : lookupKey doc "subquestions" with
      | none => some []
      | some (.seq xs) => deserializeQuestionList xs
      | some _ => none
    pure (.mk v l d t r df g o s sq)
  | _ => none
termination_by sizeOf y
decreasing_by
  have h1 := sizeOf_lookupKey h
  simp at h1 ⊢
  omega

/-- Model of `yaml.Unmarshal` of a YAML sequence into `[]models.Question`. -/
def deserializeQuestionList (ys : List Yaml) : Option (List Question) :=
  match ys with
  | [] => some []
  | y :: rest => do
    let q ← deserializeQuestion y
    let qs ← deserializeQuestionList rest
    pure (q :: qs)
termination_by sizeOf ys
decreasing_by
  all_goals (simp; try omega)
end

/-- Model of `yaml.Unmarshal` of a YAML value into the `models.Questions` wrapper. -/
def deserializeQuestions (y : Yaml) : Option Questions :=
  match y with
  | .map doc =>
    match lookupKey doc "questions" with
    | none => some ⟨[]⟩
    | some .null => some ⟨[]⟩
    | some (.seq xs) => (deserializeQuestionList xs).map Questions.mk
    | some _ => none
  | _ => none

/-- A resolved chart directory as seen by `findFile`/`os.ReadFile`: the
files of the directory tree in `filepath.Walk` order, each as a
(file name, content) pair (the walk's path lookup and the subsequent
`os.ReadFile` are fused: content is carried with the name). -/
def ChartDir : Type := List (String × String)

/-- Model of `Processor.findFile` from `backend/pkg/helm/processor.go`: first file of
the walk whose base name equals `filename` (fused with reading it). -/
def findFile (dir : ChartDir) (filename : String) : Option (String × String) :=
  dir.find? (fun e => e.1 == filename)

/-- Model of `Processor.parseValues`: a missing `values.yaml` yields an empty tree
and no error; a found one is handed to the YAML decoder `yamlV`
(`yaml.Unmarshal`, an external library modelled as a parameter). -/
def parseValues
    (yamlV : String → Except String (List (String × Yaml)))
    (dir : ChartDir) : Except String (List (String × Yaml)) :=
  match findFile dir "values.yaml" with
  | none => .ok []
  | some e => yamlV e.2

/-- Model of `Processor.parseQuestions`: looks for `questions.yaml`, then
`questions.yml`; neither found is an error; a found one is handed to the
YAML decoder `yamlQ`. -/
def parseQuestions (yamlQ : String → Except String Questions)
    (dir : ChartDir) : Except String Questions :=
  match findFile dir "questions.yaml" with
  | some e => yamlQ e.2
  | none =>
    match findFile dir "questions.yml" with
    | some e => yamlQ e.2
    | none => .error "questions.yaml not found"

/-- Model of `Processor.ProcessChart`: the Go function returns the triple
`(values map, questions, error)`; a `nil` map is `none`, the zero
`models.Questions{}` is `⟨[]⟩`, and `fmt.Errorf("...: %w", err)` wrapping
is string prefixing. `dl` is the outcome of `downloadAndExtract`. -/
def ProcessChart
    (yamlV : String → Except String (List (String × Yaml)))
    (yamlQ : String → Except String Questions)
    (dl : Except String ChartDir) :
    Option (List (String × Yaml)) × Questions × Option String :=
  match dl with
  | .error e => (none, ⟨[]⟩, some ("failed to download chart: " ++ e))
  | .ok dir =>
    match parseValues yamlV dir with
    | .error e => (none, ⟨[]⟩, some ("failed to parse values.yaml: " ++ e))
    | .ok values =>
      match parseQuestions yamlQ dir with
      | .error _ => (some values, generateDefaultQuestions values, none)
      | .ok questions =>
        (some values,
         mergeQuestions questions (generateDefaultQuestions values), none)

/-- Model of `strings.Split` on a single-character separator, over the byte/char
list of a Go string (never returns an empty list). -/
def splitOnCh (c : Char) : List Char → List (List Char)
  | [] => [[]]
  | a :: rest =>
    if a = c then [] :: splitOnCh c rest
    else
      match splitOnCh c rest with
      | [] => [[a]]
      | s :: ss => (a :: s) :: ss

/-- The chart-name derivation inside `Processor.createMockOCIChart`: last
`/`-separated segment of the OCI URL, with any `:version` suffix stripped
(`strings.Contains` + `strings.Split` in the Go source); `"unknown"` is the
initial value used when there is no segment. -/
def chartNameFromOCI (ociURL : String) : String :=
  let parts := splitOnCh '/' ociURL.data
  match parts.getLast? with
  | none => "unknown"
  | some lastPart =>
    if lastPart.contains ':' then ⟨(splitOnCh ':' lastPart).headD []⟩
    else ⟨lastPart⟩

/-- Model of `strings.Title` (ASCII): uppercase every letter that follows a
non-letter; the Boolean argument says whether the previous character was a
letter. -/
def goTitleAux : Bool → List Char → List Char
  | _, [] => []
  | prevLetter, a :: rest =>
    (if prevLetter then a else a.toUpper) :: goTitleAux a.isAlpha rest

def goTitle (s : String) : String := ⟨goTitleAux false s.data⟩

/-- Model of `strings.ToLower` (ASCII), over the char list of a Go string. -/
def goToLower (s : String) : String := ⟨s.data.map Char.toLower⟩

/-- Model of `Processor.generateMockValues`: the synthetic `values.yaml` content
switched on the lower-cased chart name (verbatim templates from the Go
source; the default branch is `fmt.Sprintf` with `strings.Title(chartName)`
and `chartName`). -/
def generateMockValues (chartName : String) : String :=
  if goToLower chartName = "ollama" then
    "# Ollama Configuration\nreplicaCount: 1\n\nimage:\n"
    ++ "  repository: ollama/ollama\n  tag: \"latest\"\n"
    ++ "  pullPolicy: IfNotPresent\n\nservice:\n  type: LoadBalancer\n"
    ++ "  port: 11434\n\nresources:\n  requests:\n    memory: 2Gi\n"
    ++ "    cpu: 1000m\n  limits:\n    memory: 8Gi\n    cpu: 4000m\n\n"
    ++ "persistence:\n  enabled: true\n  size: 20Gi\n  storageClass: \"\"\n\n"
    ++ "ollama:\n  models:\n    - llama2\n    - mistral\n  gpu:\n"
    ++ "    enabled: false\n    count: 1\n\nautoscaling:\n  enabled: false\n"
    ++ "  minReplicas: 1\n  maxReplicas: 3\n"
    ++ "  targetCPUUtilizationPercentage: 80"
  else if goToLower chartName = "prometheus" then
    "# Prometheus Configuration\nreplicaCount: 1\n\nimage:\n"
    ++ "  repository: prom/prometheus\n  tag: \"latest\"\n"
    ++ "  pullPolicy: IfNotPresent\n\nservice:\n  type: LoadBalancer\n"
    ++ "  port: 9090\n\npersistence:\n  enabled: true\n  size: 50Gi\n"
    ++ "  storageClass: \"\"\n\nresources:\n  requests:\n    memory: 1Gi\n"
    ++ "    cpu: 500m\n  limits:\n    memory: 4Gi\n    cpu: 2000m\n\n"
    ++ "retention: \"30d\"\nscrapeInterval: \"30s\""
  else if goToLower chartName = "grafana" then
    "# Grafana Configuration\nreplicaCount: 1\n\nimage:\n"
    ++ "  repository: grafana/grafana\n  tag: \"latest\"\n"
    ++ "  pullPolicy: IfNotPresent\n\nservice:\n  type: LoadBalancer\n"
    ++ "  port: 3000\n\nadminUser: admin\nadminPassword: admin\n\n"
    ++ "persistence:\n  enabled: true\n  size: 10Gi\n  storageClass: \"\"\n\n"
    ++ "resources:\n  requests:\n    memory: 256Mi\n    cpu: 100m\n"
    ++ "  limits:\n    memory: 1Gi\n    cpu: 500m"
  else
    "# " ++ goTitle chartName ++ " Configuration\nreplicaCount: 3\n\n"
    ++ "image:\n  repository: " ++ chartName ++ "\n  tag: \"latest\"\n"
    ++ "  pullPolicy: IfNotPresent\n\nservice:\n  type: LoadBalancer\n"
    ++ "  port: 8080\n\nresources:\n  requests:\n    memory: 256Mi\n"
    ++ "    cpu: 100m\n  limits:\n    memory: 512Mi\n    cpu: 500m\n\n"
    ++ "persistence:\n  enabled: true\n  size: 10Gi\n  storageClass: \"\"\n\n"
    ++ "autoscaling:\n  enabled: false\n  minReplicas: 2\n  maxReplicas: 10\n"
    ++ "  targetCPUUtilizationPercentage: 80\n\ningress:\n  enabled: false\n"
    ++ "  className: nginx\n  host: \"\"\n  tls:\n    enabled: false\n"
    ++ "    secretName: \"\""

/-- Model of `Processor.createMockOCIChart`: the materialized mock chart directory
(one `values.yaml` with the synthetic content; the temp-dir naming is
I/O and not part of the directory's file listing). -/
def createMockOCIChart (ociURL : String) : ChartDir :=
  [("values.yaml", generateMockValues (chartNameFromOCI ociURL))]

/-- Model of `Processor.downloadFromOCI`: delegate to the helm CLI when available
(`helmPull` models that external call's outcome), otherwise fall back to
the mock chart. -/
def downloadFromOCI (helmAvailable : Bool)
    (helmPull : Except String ChartDir) (ociURL : String) :
    Except String ChartDir :=
  if helmAvailable then helmPull
  else .ok (createMockOCIChart ociURL)

/-- A path is rooted (absolute) when it starts with the separator. -/
def isAbsPath : List Char → Bool
  | [] => false
  | c :: _ => c == '/'

/-- Join path elements with the `/` separator (`strings.Join`-style). -/
def joinSegs : List (List Char) → List Char
  | [] => []
  | [s] => s
  | s :: rest => s ++ '/' :: joinSegs rest

/-- Element processing of Go `filepath.Clean` (the Plan 9 algorithm) over
the `/`-separated elements: empty and `.` elements are dropped; `..` pops
the previous element, is dropped at the root of a rooted path, and is kept
at the front of a relative path. `acc` holds the processed elements in
reverse order. -/
def cleanSegsAux (rooted : Bool) :
    List (List Char) → List (List Char) → List (List Char)
  | acc, [] => acc.reverse
  | acc, s :: rest =>
    if s = [] ∨ s = ['.'] then cleanSegsAux rooted acc rest
    else if s = ['.', '.'] then
      match acc with
      | [] =>
        if rooted then cleanSegsAux rooted [] rest
        else cleanSegsAux rooted [['.', '.']] rest
      | a :: as =>
        if a = ['.', '.'] then cleanSegsAux rooted (s :: acc) rest
        else cleanSegsAux rooted as rest
    else cleanSegsAux rooted (s :: acc) rest

def cleanSegs (p : List Char) : List (List Char) :=
  cleanSegsAux (isAbsPath p) [] (splitOnCh '/' p)

/-- Go `filepath.Clean` (unix separator). -/
def goClean (p : List Char) : List Char :=
  if isAbsPath p then '/' :: joinSegs (cleanSegs p)
  else if cleanSegs p = [] then ['.']
  else joinSegs (cleanSegs p)

/-- Go `filepath.Join(a, b)`: empty arguments are dropped, the rest joined
with `/`, and the result cleaned; joining only empty strings gives `""`. -/
def goJoin (a b : List Char) : List Char :=
  if a = [] then (if b = [] then [] else goClean b)
  else if b = [] then goClean a
  else goClean (a ++ '/' :: b)

/-- The tar `Typeflag`s distinguished by `extractTarGz`'s switch; every
other flag (symlinks, hard links, ...) falls into `other` and is ignored. -/
inductive TarType where
  | dir
  | reg
  | other

/-- Per-entry target of `Processor.extractTarGz`:
`target := filepath.Join(dest, header.Name)`. -/
def entryTarget (dest name : List Char) : List Char := goJoin dest name

/-- Per-entry containment check of `Processor.extractTarGz`:
`strings.HasPrefix(target, filepath.Clean(dest)+string(os.PathSeparator))`;
an entry failing it is skipped (`continue`). -/
def entryKept (dest name : List Char) : Bool :=
  List.isPrefixOf (goClean dest ++ ['/']) (entryTarget dest name)

/-- Model of `Processor.extractTarGz`, abstracted over I/O: the filesystem paths the
loop creates (`os.MkdirAll(target)` for directory entries,
`os.OpenFile(target, O_CREATE|O_WRONLY)` for regular entries — the
`MkdirAll(filepath.Dir(target))` before it only creates prefixes of the
target's directory; other entry types create nothing). Entries failing the
containment check are skipped. -/
def extractTarGz (dest : List Char) :
    List (List Char × TarType) → List (List Char)
  | [] => []
  | (name, t) :: rest =>
    if entryKept dest name then
      match t with
      | .dir => entryTarget dest name :: extractTarGz dest rest
      | .reg => entryTarget dest name :: extractTarGz dest rest
      | .other => extractTarGz dest rest
    else extractTarGz dest rest

/-- Specification-side: `t` is a strict descendant of the directory `d`:
the cleaned directory path followed by `/` is a prefix of `t`, and `t` is
fully resolved (no `.` or `..` path elements anywhere), so its resolved
path lies strictly below `d`. -/
def strictDescendant (d t : List Char) : Prop :=
  (goClean d ++ ['/']) <+: t
  ∧ ∀ s ∈ splitOnCh '/' t, s ≠ ['.'] ∧ s ≠ ['.', '.']

/-- A normal path element: nonempty, not `.`, not `..`, separator-free. -/
def goodSeg (s : List Char) : Prop :=
  s ≠ [] ∧ s ≠ ['.'] ∧ s ≠ ['.', '.'] ∧ '/' ∉ s

/-! ### Basic lemmas -/

theorem lookupKey_nil (k : String) : lookupKey [] k = none := rfl

theorem lookupKey_cons (k1 : String) (v1 : Yaml)
    (rest : List (String × Yaml)) (k : String) :
    lookupKey ((k1, v1) :: rest) k
      = if (k1 == k) then some v1 else lookupKey rest k := by
  simp only [lookupKey, List.find?_cons]
  cases k1 == k <;> simp

theorem lookupKey_fieldOpt (b : Bool) (k1 : String) (v1 : Yaml)
    (rest : List (String × Yaml)) (k : String) :
    lookupKey (fieldOpt b k1 v1 ++ rest) k
      = if (b && (k1 == k)) then some v1 else lookupKey rest k := by
  cases b <;> simp [fieldOpt, lookupKey_cons]

theorem lookupKey_fieldOpt_solo (b : Bool) (k1 : String) (v1 : Yaml)
    (k : String) :
    lookupKey (fieldOpt b k1 v1) k
      = if (b && (k1 == k)) then some v1 else none := by
  cases b <;> simp [fieldOpt, lookupKey_cons, lookupKey_nil]

theorem mapM_strOfYaml (o : List String) :
    (o.map Yaml.str).mapM strOfYaml = some o := by
  induction o with
  | nil => rfl
  | cons a rest ih =>
    rw [List.map_cons, List.mapM_cons, ih]
    rfl

theorem mapM_loop_strOfYaml (o : List String) :
    ∀ acc : List String,
      List.mapM.loop strOfYaml (o.map Yaml.str) acc
        = some (acc.reverse ++ o) := by
  induction o with
  | nil => intro acc; simp [List.mapM.loop]
  | cons a rest ih =>
    intro acc
    simp [List.mapM.loop, strOfYaml, ih]

theorem serialize_variable_field (v l d t : String) (r : Bool) (df : Yaml)
    (g : String) (o : List String) (s : String) (sq : List Question) :
    getStrField (serializeQuestion (.mk v l d t r df g o s sq)) "variable"
      = some v := by
  simp [serializeQuestion, getStrField, lookupKey_cons]

theorem serialize_label_field (v l d t : String) (r : Bool) (df : Yaml)
    (g : String) (o : List String) (s : String) (sq : List Question) :
    getStrField (serializeQuestion (.mk v l d t r df g o s sq)) "label"
      = some l := by
  simp [serializeQuestion, getStrField, lookupKey_cons]

theorem serialize_description_field (v l d t : String) (r : Bool) (df : Yaml)
    (g : String) (o : List String) (s : String) (sq : List Question) :
    getStrField (serializeQuestion (.mk v l d t r df g o s sq)) "description"
      = some d := by
  by_cases hd : d = "" <;>
    simp [serializeQuestion, getStrField, lookupKey_cons, lookupKey_fieldOpt,
      lookupKey_fieldOpt_solo, hd]

theorem serialize_type_field (v l d t : String) (r : Bool) (df : Yaml)
    (g : String) (o : List String) (s : String) (sq : List Question) :
    getStrField (serializeQuestion (.mk v l d t r df g o s sq)) "type"
      = some t := by
  by_cases ht : t = "" <;>
    simp [serializeQuestion, getStrField, lookupKey_cons, lookupKey_fieldOpt,
      lookupKey_fieldOpt_solo, ht]

theorem serialize_required_field (v l d t : String) (r : Bool) (df : Yaml)
    (g : String) (o : List String) (s : String) (sq : List Question) :
    getBoolField (serializeQuestion (.mk v l d t r df g o s sq)) "required"
      = some r := by
  cases r <;>
    simp [serializeQuestion, getBoolField, lookupKey_cons, lookupKey_fieldOpt,
      lookupKey_fieldOpt_solo]

theorem serialize_default_field (v l d t : String) (r : Bool) (df : Yaml)
    (g : String) (o : List String) (s : String) (sq : List Question) :
    getYamlField (serializeQuestion (.mk v l d t r df g o s sq)) "default"
      = some df := by
  cases df <;>
    simp [serializeQuestion, getYamlField, Yaml.isNull, lookupKey_cons,
      lookupKey_fieldOpt, lookupKey_fieldOpt_solo]

theorem serialize_group_field (v l d t : String) (r : Bool) (df : Yaml)
    (g : String) (o : List String) (s : String) (sq : List Question) :
    getStrField (serializeQuestion (.mk v l d t r df g o s sq)) "group"
      = some g := by
  by_cases hg : g = "" <;>
    simp [serializeQuestion, getStrField, lookupKey_cons, lookupKey_fieldOpt,
      lookupKey_fieldOpt_solo, hg]

theorem serialize_options_field (v l d t : String) (r : Bool) (df : Yaml)
    (g : String) (o : List String) (s : String) (sq : List Question) :
    getStrListField (serializeQuestion (.mk v l d t r df g o s sq)) "options"
      = some o := by
  by_cases ho : o = [] <;>
    simp [serializeQuestion, getStrListField, lookupKey_cons,
      lookupKey_fieldOpt, lookupKey_fieldOpt_solo, ho, mapM_loop_strOfYaml]

theorem serialize_show_if_field (v l d t : String) (r : Bool) (df : Yaml)
    (g : String) (o : List String) (s : String) (sq : List Question) :
    getStrField (serializeQuestion (.mk v l d t r df g o s sq)) "show_if"
      = some s := by
  by_cases hs : s = "" <;>
    simp [serializeQuestion, getStrField, lookupKey_cons, lookupKey_fieldOpt,
      lookupKey_fieldOpt_solo, hs]

theorem serialize_subquestions_field (v l d t : String) (r : Bool) (df : Yaml)
    (g : String) (o : List String) (s : String) (sq : List Question) :
    lookupKey (serializeQuestion (.mk v l d t r df g o s sq)) "subquestions"
      = if sq.isEmpty then none
        else some (.seq (serializeQuestionList sq)) := by
  cases sq <;>
    simp [serializeQuestion, lookupKey_cons, lookupKey_fieldOpt,
      lookupKey_fieldOpt_solo]

theorem any_variable_eq_contains (l : List Question) (v : String) :
    l.any (fun e => e.variable_ == v)
      = (l.map Question.variable_).contains v := by
  induction l with
  | nil => rfl
  | cons q rest ih =>
    simp only [List.any_cons, List.map_cons, List.contains_cons, ih]
    by_cases h : q.variable_ = v
    · simp [h, BEq.comm]
    · simp [h, Ne.symm h, beq_false_of_ne]

theorem hasNestedKeyAux_resolves (keys : List String) :
    ∀ (data : List (String × Yaml)) (n : Nat), n ≠ 1 →
      hasNestedKeyAux n data keys = true → resolvesMappings data keys = true := by
  induction keys with
  | nil => intro data n _ _; rfl
  | cons k rest ih =>
    intro data n hn h
    unfold hasNestedKeyAux at h
    unfold resolvesMappings
    cases hl : lookupKey data k with
    | none => rw [hl] at h; exact absurd h (by simp)
    | some v =>
      rw [hl] at h
      cases v with
      | map nested => exact ih nested n hn h
      | null => simp [hn] at h
      | bool b => simp [hn] at h
      | int n2 => simp [hn] at h
      | str s => simp [hn] at h
      | seq xs => simp [hn] at h

theorem splitOnCh_sep_not_mem (c : Char) (x : List Char) :
    ∀ s ∈ splitOnCh c x, c ∉ s := by
  induction x with
  | nil =>
    intro s hs
    simp [splitOnCh] at hs
    subst hs
    simp
  | cons a rest ih =>
    intro s hs
    unfold splitOnCh at hs
    by_cases h : a = c
    · rw [if_pos h] at hs
      rcases List.mem_cons.mp hs with rfl | hs2
      · simp
      · exact ih s hs2
    · rw [if_neg h] at hs
      cases hsp : splitOnCh c rest with
      | nil =>
        rw [hsp] at hs
        simp at hs
        subst hs
        simp [h, Ne.symm]
      | cons s0 ss =>
        rw [hsp] at hs
        rcases List.mem_cons.mp hs with rfl | hs2
        · intro hc
          rcases List.mem_cons.mp hc with rfl | hc2
          · exact h rfl
          · exact ih s0 (hsp ▸ List.mem_cons_self s0 ss) hc2
        · exact ih s (hsp ▸ List.mem_cons_of_mem s0 hs2)

theorem splitOnCh_no_sep (c : Char) (s : List Char) (h : c ∉ s) :
    splitOnCh c s = [s] := by
  induction s with
  | nil => rfl
  | cons a rest ih =>
    have ha : ¬ a = c := fun hac => h (hac ▸ List.mem_cons_self a rest)
    have hr : c ∉ rest := fun hm => h (List.mem_cons_of_mem _ hm)
    simp only [splitOnCh, if_neg ha, ih hr]

theorem splitOnCh_append_sep (c : Char) (s r : List Char) (h : c ∉ s) :
    splitOnCh c (s ++ c :: r) = s :: splitOnCh c r := by
  induction s with
  | nil => simp [splitOnCh]
  | cons a s2 ih =>
    have ha : ¬ a = c := fun hac => h (hac ▸ List.mem_cons_self a s2)
    have hs2 : c ∉ s2 := fun hm => h (List.mem_cons_of_mem _ hm)
    simp only [List.cons_append, splitOnCh, if_neg ha, List.append_eq, ih hs2]

theorem splitOnCh_joinSegs (L : List (List Char)) (hne : L ≠ [])
    (hsep : ∀ s ∈ L, '/' ∉ s) : splitOnCh '/' (joinSegs L) = L := by
  induction L with
  | nil => exact absurd rfl hne
  | cons s rest ih =>
    cases rest with
    | nil =>
      exact splitOnCh_no_sep '/' s (hsep s (List.mem_cons_self s []))
    | cons s2 r2 =>
      have hjoin : joinSegs (s :: s2 :: r2) = s ++ '/' :: joinSegs (s2 :: r2) :=
        rfl
      rw [hjoin,
        splitOnCh_append_sep '/' s _ (hsep s (List.mem_cons_self s _)),
        ih (by simp) (fun t ht => hsep t (List.mem_cons_of_mem _ ht))]

theorem cleanSegsAux_good (input : List (List Char)) :
    ∀ acc : List (List Char), (∀ s ∈ acc, goodSeg s) →
      (∀ s ∈ input, '/' ∉ s) →
      ∀ s ∈ cleanSegsAux true acc input, goodSeg s := by
  induction input with
  | nil =>
    intro acc hacc _ s hs
    simp only [cleanSegsAux] at hs
    exact hacc s (List.mem_reverse.mp hs)
  | cons x rest ih =>
    intro acc hacc hin s hs
    have hinr : ∀ t ∈ rest, '/' ∉ t :=
      fun t ht => hin t (List.mem_cons_of_mem _ ht)
    simp only [cleanSegsAux] at hs
    by_cases h1 : x = [] ∨ x = ['.']
    · rw [if_pos h1] at hs
      exact ih acc hacc hinr s hs
    · rw [if_neg h1] at hs
      by_cases h2 : x = ['.', '.']
      · rw [if_pos h2] at hs
        cases acc with
        | nil =>
          simp at hs
          exact ih [] (by simp) hinr s hs
        | cons a as =>
          dsimp only at hs
          have ha : goodSeg a := hacc a (List.mem_cons_self a as)
          rw [if_neg ha.2.2.1] at hs
          exact ih as (fun t ht => hacc t (List.mem_cons_of_mem _ ht))
            hinr s hs
      · rw [if_neg h2] at hs
        have hx : goodSeg x :=
          ⟨(not_or.mp h1).1, (not_or.mp h1).2, h2,
            hin x (List.mem_cons_self x rest)⟩
        refine ih (x :: acc) ?_ hinr s hs
        intro t ht
        rcases List.mem_cons.mp ht with rfl | ht2
        · exact hx
        · exact hacc t ht2

theorem isAbsPath_append (dest x : List Char)
    (h : isAbsPath dest = true) : isAbsPath (dest ++ x) = true := by
  cases dest with
  | nil => simp [isAbsPath] at h
  | cons c t => simpa [isAbsPath] using h

theorem entryKept_strictDescendant (dest name : List Char)
    (hroot : isAbsPath dest = true) (hkept : entryKept dest name = true) :
    strictDescendant dest (entryTarget dest name) := by
  have hdest_ne : dest ≠ [] := by
    cases dest with
    | nil => simp [isAbsPath] at hroot
    | cons c t => simp
  have hpre : (goClean dest ++ ['/']) <+: entryTarget dest name := by
    rw [entryKept] at hkept
    exact List.isPrefixOf_iff_prefix.mp hkept
  refine ⟨hpre, ?_⟩
  by_cases hname : name = []
  · exfalso
    subst hname
    have htar : entryTarget dest [] = goClean dest := by
      simp [entryTarget, goJoin, hdest_ne]
    rw [htar] at hpre
    have hlen := hpre.length_le
    simp at hlen
  · have habs : isAbsPath (dest ++ '/' :: name) = true :=
      isAbsPath_append dest _ hroot
    have htar : entryTarget dest name = goClean (dest ++ '/' :: name) := by
      simp [entryTarget, goJoin, hdest_ne, hname]
    have hsegs : cleanSegs (dest ++ '/' :: name)
        = cleanSegsAux true [] (splitOnCh '/' (dest ++ '/' :: name)) := by
      rw [cleanSegs, habs]
    have hgood : ∀ s ∈ cleanSegs (dest ++ '/' :: name), goodSeg s := by
      rw [hsegs]
      exact cleanSegsAux_good _ [] (by simp) (splitOnCh_sep_not_mem '/' _)
    rw [htar, goClean, if_pos habs]
    intro s hs
    have hsplit : splitOnCh '/' ('/' :: joinSegs (cleanSegs (dest ++ '/' :: name)))
        = [] :: splitOnCh '/' (joinSegs (cleanSegs (dest ++ '/' :: name))) := by
      simp [splitOnCh]
    rw [hsplit] at hs
    rcases List.mem_cons.mp hs with rfl | hs2
    · exact ⟨by simp, by simp⟩
    · cases hL : cleanSegs (dest ++ '/' :: name) with
      | nil =>
        rw [hL] at hs2
        simp [joinSegs, splitOnCh] at hs2
        subst hs2
        exact ⟨by simp, by simp⟩
      | cons l0 ls =>
        rw [splitOnCh_joinSegs _ (by rw [hL]; simp)
          (fun t ht => (hgood t ht).2.2.2)] at hs2
        have hg := hgood s hs2
        exact ⟨hg.2.1, hg.2.2.1⟩

mutual
theorem deserializeQuestion_serializeQuestion :
    ∀ q : Question,
      deserializeQuestion (.map (serializeQuestion q)) = some q
  | .mk v l d t r df g o s sq => by
    unfold deserializeQuestion
    simp only [serialize_variable_field, serialize_label_field,
      serialize_description_field, serialize_type_field,
      serialize_required_field, serialize_default_field,
      serialize_group_field, serialize_options_field,
      serialize_show_if_field, Option.bind_eq_bind, Option.some_bind]
    split
    · rename_i heq
      rw [serialize_subquestions_field] at heq
      cases sq with
      | nil => simp
      | cons q1 qrest => simp at heq
    · rename_i xs heq
      rw [serialize_subquestions_field] at heq
      cases sq with
      | nil => simp at heq
      | cons q1 qrest =>
        simp only [List.isEmpty_cons, Bool.false_eq_true, if_false,
          Option.some.injEq, Yaml.seq.injEq] at heq
        rw [← heq,
          deserializeQuestion_serializeQuestionList (q1 :: qrest)]
        rfl
    · rename_i y hne heq
      rw [serialize_subquestions_field] at heq
      cases sq with
      | nil => simp at heq
      | cons q1 qrest =>
        simp only [List.isEmpty_cons, Bool.false_eq_true, if_false,
          Option.some.injEq] at heq
        exact absurd (hne _ heq.symm) (fun h => h)
termination_by q => sizeOf q

theorem deserializeQuestion_serializeQuestionList :
    ∀ l : List Question,
      deserializeQuestionList (serializeQuestionList l) = some l
  | [] => by
    unfold serializeQuestionList deserializeQuestionList
    rfl
  | q :: qs => by
    unfold serializeQuestionList deserializeQuestionList
    rw [deserializeQuestion_serializeQuestion q,
      deserializeQuestion_serializeQuestionList qs]
    rfl
termination_by l => sizeOf l
end

/-! ### Claim theorems -/

/-- C1: for the tree `service.type = "LoadBalancer"` the code does NOT emit a
`service.type` question: `hasNestedKey` returns `len(keys) == 1 = false` when
the final segment's value is a scalar, so `generateDefaultQuestions` returns
only the `name` and `namespace` questions (2, not the claimed 3), contradicting
the repository's own tests `TestHasNestedKey` and `TestGenerateDefaultQuestions`. -/
theorem C1_code_eval :
    generateDefaultQuestions
        [("service", Yaml.map [("type", Yaml.str "LoadBalancer")])]
      = ⟨[nameQuestion, namespaceQuestion]⟩
    ∧ hasNestedKey [("service", Yaml.map [("type", Yaml.str "LoadBalancer")])]
        ["service", "type"] = false :=
  ⟨rfl, rfl⟩

/-- C4: for every configuration tree, `generateDefaultQuestions` emits the
mandatory `name` (Application Name, string, required, group "General") and
`namespace` (Namespace, string, required, group "General") questions as the
first two entries in that order, each occurring exactly once; for the empty
tree the result is exactly those two questions. -/
theorem C4_mandatory_questions (values : List (String × Yaml)) :
    (generateDefaultQuestions values).questions.take 2
      = [nameQuestion, namespaceQuestion]
    ∧ (generateDefaultQuestions values).questions.countP
        (fun q => q.variable_ == "name") = 1
    ∧ (generateDefaultQuestions values).questions.countP
        (fun q => q.variable_ == "namespace") = 1
    ∧ (generateDefaultQuestions []).questions
      = [nameQuestion, namespaceQuestion] := by
  unfold generateDefaultQuestions
  cases hasNestedKey values ["service", "type"] <;>
    cases hasNestedKey values ["persistence", "storageClass"] <;>
      exact ⟨rfl, rfl, rfl, rfl⟩

/-- C10: for a key path of length ≥ 2, `hasNestedKey` returns true only when
every segment, including the final one, resolves to a nested mapping; a dotted
path whose final value is a scalar is reported as absent and generates no
question; for a single-segment path the key's existence alone suffices. -/
theorem C10_hasNestedKey_semantics :
    (∀ (data : List (String × Yaml)) (keys : List String),
      2 ≤ keys.length → hasNestedKey data keys = true →
        resolvesMappings data keys = true)
    ∧ (∀ (data : List (String × Yaml)) (m : List (String × Yaml)) (v : Yaml),
        lookupKey data "service" = some (.map m) →
        lookupKey m "type" = some v → v.isScalar = true →
          hasNestedKey data ["service", "type"] = false
          ∧ ∀ q ∈ (generateDefaultQuestions data).questions,
              q.variable_ ≠ "service.type")
    ∧ (∀ (data : List (String × Yaml)) (k : String),
        hasNestedKey data [k] = (lookupKey data k).isSome) := by
  refine ⟨?_, ?_, ?_⟩
  · intro data keys hlen h
    exact hasNestedKeyAux_resolves keys data keys.length (by omega) h
  · intro data m v hserv htype hscalar
    have hfalse : hasNestedKey data ["service", "type"] = false := by
      unfold hasNestedKey hasNestedKeyAux
      rw [hserv]
      unfold hasNestedKeyAux
      rw [htype]
      cases v <;> simp_all [Yaml.isScalar]
    refine ⟨hfalse, ?_⟩
    intro q hq
    unfold generateDefaultQuestions at hq
    rw [hfalse] at hq
    simp [nameQuestion, namespaceQuestion, storageClassQuestion] at hq
    rcases hq with rfl | rfl | ⟨-, rfl⟩ <;> decide
  · intro data k
    unfold hasNestedKey hasNestedKeyAux
    cases hl : lookupKey data k with
    | none => simp
    | some v => cases v <;> simp [hasNestedKeyAux]

/-- C7: serializing a QuestionSet with the yaml field names
(`variable`, `label`, `description`, `type`, `required`, `default`, `group`,
`options`, `show_if`, `subquestions`), omitting every unset/default-valued
field except `variable` and `label`, and then deserializing, yields a
structurally equal QuestionSet. -/
theorem C7_questions_roundtrip (qs : Questions) :
    deserializeQuestions (serializeQuestions qs) = some qs := by
  obtain ⟨l⟩ := qs
  simp only [serializeQuestions, deserializeQuestions, lookupKey_cons,
    BEq.refl, if_true]
  rw [deserializeQuestion_serializeQuestionList l]
  rfl

/-- C3 (amended): the merge keeps `existing` verbatim and in order as a prefix,
appends exactly those defaults whose `variable` does not occur in `existing`
(in order), and — provided `existing` and `defaults` each contain no duplicate
variables — the merged result contains no two entries with the same variable.
(Unrestricted inputs can yield duplicates, see the counterexample.) -/
theorem C3_merge_shape (existing defaults : Questions) :
    (mergeQuestions existing defaults).questions
      = existing.questions
        ++ defaults.questions.filter
            (fun q => !((existing.questions.map Question.variable_).contains
              q.variable_))
    ∧ ((existing.questions.map Question.variable_).Nodup →
       (defaults.questions.map Question.variable_).Nodup →
       ((mergeQuestions existing defaults).questions.map
          Question.variable_).Nodup) := by
  have hstep : (mergeQuestions existing defaults).questions
      = existing.questions
        ++ defaults.questions.filter
            (fun q => !(existing.questions.any
              (fun e => e.variable_ == q.variable_))) := rfl
  have hshape : (mergeQuestions existing defaults).questions
      = existing.questions
        ++ defaults.questions.filter
            (fun q => !((existing.questions.map Question.variable_).contains
              q.variable_)) := by
    rw [hstep]
    congr 1
    exact List.filter_congr (fun q _ => by rw [any_variable_eq_contains])
  refine ⟨hshape, ?_⟩
  intro he hd
  have hcomp : (fun q : Question =>
      !((existing.questions.map Question.variable_).contains q.variable_))
      = ((fun v => !((existing.questions.map Question.variable_).contains v))
          ∘ Question.variable_) := rfl
  have hmf : (defaults.questions.filter
      (fun q => !((existing.questions.map Question.variable_).contains
        q.variable_))).map Question.variable_
      = (defaults.questions.map Question.variable_).filter
          (fun v => !((existing.questions.map Question.variable_).contains
            v)) := by
    rw [hcomp, ← List.filter_map]
  rw [hshape, List.map_append, hmf, List.nodup_append]
  refine ⟨he, hd.filter _, ?_⟩
  intro v hv hvf
  rw [List.mem_filter] at hvf
  have h1 : (existing.questions.map Question.variable_).elem v = true :=
    List.elem_iff.mpr hv
  have h2 := hvf.2
  rw [Bool.not_eq_true'] at h2
  have h3 : (existing.questions.map Question.variable_).elem v = false := h2
  exact absurd (h1.symm.trans h3) (by simp)

/-- C3 counterexample: with an `existing` set that already repeats a variable,
the merged result contains two entries with the same variable, refuting the
unrestricted no-duplicates claim. -/
theorem C3_counterexample :
    ¬ (((mergeQuestions
          ⟨[Question.mk "dup" "A" "" "" false .null "" [] "" [],
            Question.mk "dup" "B" "" "" false .null "" [] "" []]⟩
          ⟨[]⟩).questions.map Question.variable_).Nodup) := by
  decide

/-- Witness for C10: instantiates the three parts at concrete trees. -/
theorem C10_hasNestedKey_semantics_witness :
    resolvesMappings [("a", Yaml.map [("b", Yaml.map [])])] ["a", "b"] = true
    ∧ (hasNestedKey
        [("service", Yaml.map [("type", Yaml.str "LoadBalancer")])]
        ["service", "type"] = false
      ∧ ∀ q ∈ (generateDefaultQuestions
          [("service", Yaml.map [("type", Yaml.str "LoadBalancer")])]).questions,
          q.variable_ ≠ "service.type")
    ∧ hasNestedKey [("simple", Yaml.str "v")] ["simple"]
        = (lookupKey [("simple", Yaml.str "v")] "simple").isSome :=
  ⟨C10_hasNestedKey_semantics.1 [("a", Yaml.map [("b", Yaml.map [])])]
      ["a", "b"] (by decide) rfl,
   C10_hasNestedKey_semantics.2.1
      [("service", Yaml.map [("type", Yaml.str "LoadBalancer")])]
      [("type", Yaml.str "LoadBalancer")] (Yaml.str "LoadBalancer")
      rfl rfl rfl,
   C10_hasNestedKey_semantics.2.2 [("simple", Yaml.str "v")] "simple"⟩

/-- Witness for C3: the amended no-duplicates conclusion at concrete inputs. -/
theorem C3_merge_shape_witness :
    ((mergeQuestions
        ⟨[Question.mk "a" "A" "" "" false .null "" [] "" []]⟩
        ⟨[Question.mk "a" "B" "" "" false .null "" [] "" [],
          Question.mk "b" "C" "" "" false .null "" [] "" []]⟩).questions.map
      Question.variable_).Nodup :=
  (C3_merge_shape
      ⟨[Question.mk "a" "A" "" "" false .null "" [] "" []]⟩
      ⟨[Question.mk "a" "B" "" "" false .null "" [] "" [],
        Question.mk "b" "C" "" "" false .null "" [] "" []]⟩).2
    (by decide) (by decide)

/-- C2: for every archive entry list, every filesystem path the extraction
loop creates is a strict descendant of the (absolute) destination
directory: an entry is processed only when its joined target passes the
`HasPrefix(target, Clean(dest)+"/")` check, and the joined target is
already fully resolved, so entries with `../` or absolute-path components
can never place a file or directory outside `dest`; every entry whose
joined target is not a strict descendant of `dest` is skipped. -/
theorem C2_extract_contained (dest : List Char)
    (hroot : isAbsPath dest = true)
    (entries : List (List Char × TarType)) :
    ∀ t ∈ extractTarGz dest entries, strictDescendant dest t := by
  induction entries with
  | nil =>
    intro t ht
    simp [extractTarGz] at ht
  | cons e rest ih =>
    obtain ⟨name, ty⟩ := e
    intro t ht
    simp only [extractTarGz] at ht
    by_cases hk : entryKept dest name = true
    · rw [if_pos hk] at ht
      cases ty with
      | dir =>
        dsimp only at ht
        rcases List.mem_cons.mp ht with rfl | h2
        · exact entryKept_strictDescendant dest name hroot hk
        · exact ih t h2
      | reg =>
        dsimp only at ht
        rcases List.mem_cons.mp ht with rfl | h2
        · exact entryKept_strictDescendant dest name hroot hk
        · exact ih t h2
      | other =>
        dsimp only at ht
        exact ih t ht
    · rw [if_neg hk] at ht
      exact ih t ht

/-- Witness for C2: a concrete archive holding a `../../` traversal entry,
an absolute entry and a normal entry, against a concrete absolute
destination. -/
theorem C2_extract_contained_witness :
    isAbsPath "/tmp/helm-charts/extracted-1".data = true
    ∧ strictDescendant "/tmp/helm-charts/extracted-1".data
        (entryTarget "/tmp/helm-charts/extracted-1".data
          "chart/values.yaml".data) :=
  ⟨by decide,
   C2_extract_contained "/tmp/helm-charts/extracted-1".data (by decide)
     [("../../evil".data, .reg), ("/etc/passwd".data, .reg),
      ("chart/values.yaml".data, .reg)]
     (entryTarget "/tmp/helm-charts/extracted-1".data
       "chart/values.yaml".data)
     (by decide)⟩

/-- C5 (amended): an error of source resolution or of configuration parsing
aborts `ProcessChart` with no partial result (`nil` tree, empty question
set), the underlying error being propagated wrapped in a fixed descriptive
prefix (`failed to download chart: ` resp. `failed to parse values.yaml: `)
rather than unchanged; a failure of `parseQuestions` is not an error and
yields the synthesized defaults with a nil error. -/
theorem C5_processChart_errors
    (yamlV : String → Except String (List (String × Yaml)))
    (yamlQ : String → Except String Questions) :
    (∀ e, ProcessChart yamlV yamlQ (.error e)
        = (none, ⟨[]⟩, some ("failed to download chart: " ++ e)))
    ∧ (∀ (dir : ChartDir) e, parseValues yamlV dir = .error e →
        ProcessChart yamlV yamlQ (.ok dir)
          = (none, ⟨[]⟩, some ("failed to parse values.yaml: " ++ e)))
    ∧ (∀ (dir : ChartDir) vals e, parseValues yamlV dir = .ok vals →
        parseQuestions yamlQ dir = .error e →
        ProcessChart yamlV yamlQ (.ok dir)
          = (some vals, generateDefaultQuestions vals, none)) := by
  refine ⟨fun e => rfl, ?_, ?_⟩
  · intro dir e hpv
    simp only [ProcessChart, hpv]
  · intro dir vals e hpv hpq
    simp only [ProcessChart, hpv, hpq]

/-- C5 counterexample: the propagated error is not the resolver's error
unchanged — it carries the `failed to download chart: ` prefix. -/
theorem C5_counterexample :
    (ProcessChart (fun _ => .ok []) (fun _ => .error "nf")
        (.error "boom")).2.2
      = some ("failed to download chart: boom")
    ∧ (ProcessChart (fun _ => .ok []) (fun _ => .error "nf")
        (.error "boom")).2.2
      ≠ some "boom" :=
  ⟨rfl, by decide⟩

/-- Witness for C5: the three branches at concrete inputs. -/
theorem C5_processChart_errors_witness :
    ProcessChart (fun _ => .error "bad yaml") (fun _ => .error "nf")
        (.ok [("values.yaml", "x")])
      = (none, ⟨[]⟩, some ("failed to parse values.yaml: " ++ "bad yaml"))
    ∧ ProcessChart (fun _ => .ok []) (fun _ => .error "nf")
        (.ok [("values.yaml", "x")])
      = (some [], generateDefaultQuestions [], none)
    ∧ ProcessChart (fun _ => .ok []) (fun _ => .error "nf") (.error "boom")
      = (none, ⟨[]⟩, some ("failed to download chart: " ++ "boom")) :=
  ⟨(C5_processChart_errors (fun _ => .error "bad yaml")
      (fun _ => .error "nf")).2.1 [("values.yaml", "x")] "bad yaml" rfl,
   (C5_processChart_errors (fun _ => .ok [])
      (fun _ => .error "nf")).2.2 [("values.yaml", "x")] []
      "questions.yaml not found" rfl rfl,
   (C5_processChart_errors (fun _ => .ok []) (fun _ => .error "nf")).1 "boom"⟩

/-- C9 (amended): when no `values.yaml` exists in the resolved directory
tree, `parseValues` returns an empty tree and no error; when one exists it
returns exactly the YAML decoder's outcome, so it fails precisely when
decoding the found file fails (the unrestricted "never fails" reading is
refuted by the counterexample). -/
theorem C9_parseValues_spec
    (yamlV : String → Except String (List (String × Yaml)))
    (dir : ChartDir) :
    (findFile dir "values.yaml" = none → parseValues yamlV dir = .ok [])
    ∧ (∀ e, findFile dir "values.yaml" = some e →
        parseValues yamlV dir = yamlV e.2) := by
  constructor
  · intro h
    simp only [parseValues, h]
  · intro e h
    simp only [parseValues, h]

/-- C9 counterexample: a directory whose `values.yaml` the YAML decoder
rejects makes `parseValues` fail, so `parseValues` does not "never fail". -/
theorem C9_counterexample :
    parseValues
        (fun c => if c = "::badyaml" then .error "yaml: parse error"
                  else .ok [])
        [("values.yaml", "::badyaml")]
      = .error "yaml: parse error" := rfl

/-- Witness for C9: both branches at concrete directories. -/
theorem C9_parseValues_spec_witness :
    parseValues (fun _ => .error "never called") [("Chart.yaml", "x")]
      = .ok []
    ∧ parseValues (fun _ => .ok [("a", Yaml.int 1)])
        [("values.yaml", "a: 1")]
      = (fun _ => .ok [("a", Yaml.int 1)]) ("values.yaml", "a: 1").2 :=
  ⟨(C9_parseValues_spec (fun _ => .error "never called")
      [("Chart.yaml", "x")]).1 rfl,
   (C9_parseValues_spec (fun _ => .ok [("a", Yaml.int 1)])
      [("values.yaml", "a: 1")]).2 ("values.yaml", "a: 1") rfl⟩

/-- C8: with no helm CLI available, the resolver derives the chart name
`"x"` from `oci://host/charts/x:1.0.0` (last path segment, `:version`
suffix stripped), materializes a synthetic `values.yaml` for it, and
`ProcessChart` completes without error (whenever the external YAML decoder
accepts the synthetic document, which real YAML does). -/
theorem C8_oci_fallback :
    chartNameFromOCI "oci://host/charts/x:1.0.0" = "x"
    ∧ createMockOCIChart "oci://host/charts/x:1.0.0"
        = [("values.yaml", generateMockValues "x")]
    ∧ ∀ (yamlV : String → Except String (List (String × Yaml)))
        (yamlQ : String → Except String Questions)
        (vals : List (String × Yaml)),
        yamlV (generateMockValues "x") = .ok vals →
        (ProcessChart yamlV yamlQ
          (downloadFromOCI false (.error "helm pull failed")
            "oci://host/charts/x:1.0.0")).2.2 = none := by
  refine ⟨by decide, rfl, ?_⟩
  intro yamlV yamlQ vals hv
  have h1 : parseValues yamlV [("values.yaml", generateMockValues "x")]
      = .ok vals := by
    simp only [parseValues,
      show findFile [("values.yaml", generateMockValues "x")] "values.yaml"
        = some ("values.yaml", generateMockValues "x") from rfl]
    exact hv
  have h2 : parseQuestions yamlQ [("values.yaml", generateMockValues "x")]
      = .error "questions.yaml not found" := rfl
  show (ProcessChart yamlV yamlQ
      (.ok [("values.yaml", generateMockValues "x")])).2.2 = none
  simp only [ProcessChart, h1, h2]

/-- Witness for C8: a decoder that accepts the synthetic document. -/
theorem C8_oci_fallback_witness :
    (ProcessChart (fun _ => .ok []) (fun _ => .error "nf")
      (downloadFromOCI false (.error "helm pull failed")
        "oci://host/charts/x:1.0.0")).2.2 = none :=
  C8_oci_fallback.2.2 (fun _ => .ok []) (fun _ => .error "nf") [] rfl

/-- C6: `mergeQuestions` is idempotent in its second argument. -/
theorem C6_merge_idempotent (existing defaults : Questions) :
    mergeQuestions (mergeQuestions existing defaults) defaults
      = mergeQuestions existing defaults := by
  unfold mergeQuestions
  congr 1
  have hnil : (defaults.questions.filter
      (fun q => !((existing.questions
          ++ defaults.questions.filter
              (fun q2 => !(existing.questions.any
                (fun e => e.variable_ == q2.variable_)))).any
        (fun e => e.variable_ == q.variable_)))) = [] := by
    rw [List.filter_eq_nil_iff]
    intro q hq
    simp only [Bool.not_eq_true', Bool.not_eq_false]
    rw [List.any_append]
    cases hex : existing.questions.any (fun e => e.variable_ == q.variable_) with
    | true => simp
    | false =>
      have hqf : q ∈ defaults.questions.filter
          (fun q2 => !(existing.questions.any
            (fun e => e.variable_ == q2.variable_))) := by
        rw [List.mem_filter]
        exact ⟨hq, by simp [hex]⟩
      have : (defaults.questions.filter
          (fun q2 => !(existing.questions.any
            (fun e => e.variable_ == q2.variable_)))).any
          (fun e => e.variable_ == q.variable_) = true := by
        rw [List.any_eq_true]
        exact ⟨q, hqf, by simp⟩
      simp [this]
  rw [hnil, List.append_nil]
